import Mathlib

/-
Verification of the dependency-resolution and cross-reference engine of the
`ade` repository (gem-compare-modules.py and versions.py), as a shallow
embedding in Lean 4.

Conventions of the embedding:
  * Python strings are Lean `String`s; character-level operations
    (str.replace, re scanning) are implemented on `List Char`.
  * A Python dict with insertion-order iteration is an association list
    `VarDict`; assigning to an existing key updates the value in place
    (keeping the key position), assigning a fresh key appends.
  * Filesystem queries (os.path.exists) are an oracle `fs : String → Bool`;
    opening a file yields `Option (List String)` (`none` = IOError on open).
  * Python exceptions are `Except`: raised IOError carries its message
    string (quote characters of the source f-strings are elided),
    ValueError / IndexError carry `Unit`.
  * Loops whose body consumes input are given fuel equal to the input
    length, which each iteration strictly decreases, so the fuel arm is
    never reached on the calls the programs make.
-/

/-- Association list standing for a Python dict iterated in insertion order. -/
abbrev VarDict := List (String × String)

/-- `d[k]` lookup: first pair whose key equals `k`. -/
def dictLookup (d : VarDict) (k : String) : Option String :=
  (d.find? (fun p => p.1 == k)).map (fun p => p.2)

/-- `d[k] = v` assignment: update in place if the key exists, else append.
This is Python dict semantics: a re-assigned key keeps its position. -/
def dictInsert (d : VarDict) (k v : String) : VarDict :=
  if d.any (fun p => p.1 == k) then
    d.map (fun p => if p.1 == k then (k, v) else p)
  else
    d ++ [(k, v)]

/-- Does `pat` occur at the head of `l`? -/
def startsWithList : List Char → List Char → Bool
  | [], _ => true
  | _ :: _, [] => false
  | p :: ps, c :: cs => p == c && startsWithList ps cs

/-- Python `s.split(sep)` for a one-character separator (every `split`
in the sources uses one): the list of chunks between separators, with
empty chunks kept, and `[""]` for the empty string. -/
def splitOnChar (sep : Char) : List Char → List (List Char)
  | [] => [[]]
  | c :: rest =>
    match splitOnChar sep rest with
    | [] => [[c]]
    | h :: t => if c == sep then [] :: h :: t else (c :: h) :: t

/-- `s.split(sep)` on strings. -/
def strSplitOnChar (sep : Char) (s : String) : List String :=
  (splitOnChar sep s.data).map String.mk

/-- Python `s.strip()`: drop whitespace from both ends. -/
def pyStrip (s : String) : String :=
  String.mk (((s.data.dropWhile Char.isWhitespace).reverse.dropWhile
    Char.isWhitespace).reverse)

/-- Python `s.startswith(t)`. -/
def strStartsWith (s t : String) : Bool :=
  startsWithList t.data s.data

/-- Python `s.endswith(t)`. -/
def strEndsWith (s t : String) : Bool :=
  startsWithList t.data.reverse s.data.reverse

/-- One fuel-indexed pass of Python `str.replace(pat, sub)`: scan left to
right, replace each non-overlapping occurrence of `pat`, never rescanning
the replacement text. Fuel `l.length` is always enough because every step
consumes at least one character of `l` (the programs only call this with
non-empty `pat`, namely a literal macro reference). -/
def replaceGo (pat sub : List Char) : Nat → List Char → List Char
  | _, [] => []
  | 0, l => l
  | fuel + 1, c :: rest =>
    if 1 ≤ pat.length ∧ startsWithList pat (c :: rest) = true then
      sub ++ replaceGo pat sub fuel ((c :: rest).drop pat.length)
    else
      c :: replaceGo pat sub fuel rest

/-- Python `s.replace(pat, sub)` on strings. -/
def replaceAllStr (pat sub s : String) : String :=
  String.mk (replaceGo pat.data sub.data s.data.length s.data)

/-- gem-compare-modules.py `expand_variable(var_dict, value)`:
for each `name` currently in the dict, in insertion order, replace every
occurrence of the literal text `$(name)` by the stored expansion.
Replacements of later dict entries see the text produced by earlier ones,
so substitution cascades through substitution-introduced references. -/
def expand_variable (var_dict : VarDict) (value : String) : String :=
  var_dict.foldl (fun v p => replaceAllStr ("$(" ++ p.1 ++ ")") p.2 v) value

/-- Characters allowed in a macro name by the pattern `[a-zA-Z0-9_]`. -/
def isMacroChar (c : Char) : Bool :=
  c.isAlphanum || c == '_'

/-- Try to read one macro reference `$(name)` at the head of the input;
returns the name and the remaining characters. Mirrors one match attempt
of the compiled pattern `\$\([a-zA-Z0-9_]+\)` at the current position. -/
def parseRef : List Char → Option (String × List Char)
  | '$' :: '(' :: rest =>
    let nm := rest.takeWhile isMacroChar
    if nm.isEmpty then none
    else
      match rest.drop nm.length with
      | ')' :: r2 => some (String.mk nm, r2)
      | _ => none
  | _ => none

/-- Fuel-indexed scan collecting all macro references in order, as
`re.finditer` does: try a match at each position, continuing after a match
or one character forward otherwise. Fuel `l.length` is always enough
because a successful match consumes at least one character. -/
def findRefsGo : Nat → List Char → List String
  | _, [] => []
  | 0, _ => []
  | fuel + 1, c :: rest =>
    match parseRef (c :: rest) with
    | some (nm, r2) => nm :: findRefsGo fuel r2
    | none => findRefsGo fuel rest

/-- All `$(name)` references occurring in a string, leftmost first. -/
def findRefs (s : String) : List String :=
  findRefsGo s.data.length s.data

/-- versions.py `Macro._replace_macros(line)`: if the macro dictionary is
non-empty, find the references present in the original line, and for each
one that is a dictionary key substitute its value into the current line
with `re.sub` (which replaces all occurrences). References introduced by a
substitution are not rescanned, because the match list was computed on the
original line. -/
def replace_macros (d : VarDict) (line : String) : String :=
  if d.isEmpty then line
  else
    (findRefs line).foldl
      (fun cur nm =>
        match dictLookup d nm with
        | some v => replaceAllStr ("$(" ++ nm ++ ")") v cur
        | none => cur)
      line

/-- versions.py `Macro.process_line(line)`: if the line contains `=`
(the `re.search('.*=.*', line)` test), split on `=` and unpack into
exactly two parts — a line with two or more `=` raises ValueError
(`Except.error`); expand macros in the right-hand side against the
dictionary built from earlier lines, store the result, and return both
halves together with the updated dictionary. A line with no `=` is
returned as `(line, "")` with the dictionary untouched. -/
def process_line (d : VarDict) (line : String) :
    Except Unit ((String × String) × VarDict) :=
  match strSplitOnChar '=' line with
  | [l_val, r_val] =>
    let l := pyStrip l_val
    let r := replace_macros d (pyStrip r_val)
    Except.ok ((l, r), dictInsert d l r)
  | _ :: _ :: _ => Except.error ()
  | _ => Except.ok ((line, ""), d)

/-- `os.path.join(a, b)` for the relative `b`s the programs use: absolute
`b` wins; otherwise join with a single slash unless `a` is empty or
already ends in one. -/
def pathJoin (a b : String) : String :=
  if strStartsWith b "/" = true then b
  else if a = "" then b
  else if strEndsWith a "/" = true then a ++ b
  else a ++ "/" ++ b

/-- Drop trailing slash characters. -/
def stripSlashes (l : List Char) : List Char :=
  (l.reverse.dropWhile (fun c => c == '/')).reverse

/-- `os.path.split(p)`: split at the last slash; the tail is everything
after it, the head is everything before it with trailing slashes removed
unless the head consists only of slashes. -/
def osPathSplit (p : String) : String × String :=
  let l := p.data
  let tl := (l.reverse.takeWhile (fun c => c != '/')).reverse
  let hd := l.take (l.length - tl.length)
  if hd.isEmpty then ("", p)
  else if hd.all (fun c => c == '/') then (String.mk hd, String.mk tl)
  else (String.mk (stripSlashes hd), String.mk tl)

/-- Does a string begin with the release pattern `^\d+-\d+` of
gem-compare-modules.py: one or more digits, a dash, then a digit
(`re.match` only anchors at the start, so trailing text is allowed)? -/
def releaseMatch (s : String) : Bool :=
  let l := s.data
  let ds := l.takeWhile Char.isDigit
  !ds.isEmpty &&
    (match l.drop ds.length with
     | '-' :: c :: _ => c.isDigit
     | _ => false)

/-- gem-compare-modules.py `extract_version(path)`: the last path segment
when it matches the release pattern, `None` otherwise. -/
def extract_version (path : String) : Option String :=
  let potential := (osPathSplit path).2
  if releaseMatch potential = true then some potential else none

/-- gem-compare-modules.py `Support` namedtuple. -/
structure Support where
  var : String
  path : String
  version : Option String
deriving DecidableEq

/-- gem-compare-modules.py `mod_version(mod)`: the extracted version, or
the full path when no version pattern matched. -/
def mod_version (mod : Support) : String :=
  mod.version.getD mod.path

/-- gem-compare-modules.py `EXCLUDE_MODULES`. -/
def EXCLUDE_MODULES : List String := ["EPICS_RELEASE", "EPICS_BASE"]

/-- State threaded through `extract_support`: the macro dictionary and the
accumulated `release_info` records. -/
structure GemSt where
  dict : VarDict
  recs : List Support
deriving DecidableEq

/-- The name/value parse of one `extract_support` line: drop everything
after the first `#`, strip, skip the line if empty, split on `=`, strip
both parts, and demand exactly two parts (otherwise the tuple unpack
raises ValueError, which the source catches and ignores). -/
def gemParsed (rawLine : String) : Option (String × String) :=
  let line := pyStrip ((strSplitOnChar '#' rawLine).headD "")
  if line = "" then none
  else
    match (strSplitOnChar '=' line).map pyStrip with
    | [n, v] => some (n, v)
    | _ => none

/-- One loop iteration of gem-compare-modules.py `extract_support`: on a
well-formed line, expand the value against the variables defined so far,
append a `Support` record when the name is not excluded and
`os.path.exists(join(expanded, 'lib'))` holds, and store the expanded
value in the dictionary. Malformed or empty lines leave the state alone. -/
def gemLine (fs : String → Bool) (st : GemSt) (rawLine : String) : GemSt :=
  match gemParsed rawLine with
  | none => st
  | some (n, v) =>
    let expanded := expand_variable st.dict v
    let recs :=
      if n ∉ EXCLUDE_MODULES ∧ fs (pathJoin expanded "lib") = true then
        st.recs ++ [⟨n, expanded, extract_version expanded⟩]
      else st.recs
    ⟨dictInsert st.dict n expanded, recs⟩

/-- Process a whole `configure/RELEASE` file, starting from an empty
dictionary and an empty record list. -/
def gemFile (fs : String → Bool) (lines : List String) : GemSt :=
  lines.foldl (gemLine fs) ⟨[], []⟩

/-- gem-compare-modules.py `extract_support(env, ioc_name, top)` (the
`env` parameter is unused in the source body). The file contents stand in
for `open(join(top, 'configure', 'RELEASE'))`: `none` means the open
raised IOError, which the source re-raises with the ioc name and the
missing file name attached. -/
def extract_support (fs : String → Bool) (ioc_name top : String)
    (file : Option (List String)) : Except String (List Support) :=
  match file with
  | none =>
    Except.error ("Extracting modules for " ++ ioc_name ++ ": No such file "
      ++ pathJoin (pathJoin top "configure") "RELEASE")
  | some lines => Except.ok (gemFile fs lines).recs

/-- Maturity constants of versions.py. -/
def MATURITY_PROD : String := "prod"

/-- versions.py `MATURITY_WORK`. -/
def MATURITY_WORK : String := "work"

/-- versions.py `MATURITY_TEST`. -/
def MATURITY_TEST : String := "test"

/-- versions.py `MATURITY_LIST`. -/
def MATURITY_LIST : List String := [MATURITY_PROD, MATURITY_WORK, MATURITY_TEST]

/-- A `(name, version, epics, maturity)` dependency tuple of
versions.py `get_dependencies`. -/
abbrev Dep := String × String × String × String

/-- Python negative indexing `l[-i]`; out of range raises IndexError. -/
def negGet (l : List String) (i : Nat) : Except Unit String :=
  if h : 1 ≤ i ∧ i ≤ l.length then
    Except.ok (l.get ⟨l.length - i, by omega⟩)
  else Except.error ()

/-- Lexicographic comparison of dependency tuples, as Python sorts them. -/
def depLE (a b : Dep) : Bool :=
  decide (a.1 < b.1) || (a.1 == b.1 &&
    (decide (a.2.1 < b.2.1) || (a.2.1 == b.2.1 &&
      (decide (a.2.2.1 < b.2.2.1) || (a.2.2.1 == b.2.2.1 &&
        decide (a.2.2.2 ≤ b.2.2.2))))))

/-- Insert into a sorted list (used to model Python `sorted`). -/
def insertDep (x : Dep) : List Dep → List Dep
  | [] => [x]
  | y :: t => if depLE x y then x :: y :: t else y :: insertDep x t

/-- Python `sorted` on dependency tuples, by insertion sort. -/
def sortDeps (l : List Dep) : List Dep := l.foldr insertDep []

/-- One loop iteration of versions.py `get_dependencies`: strip the line,
skip comment lines (`re.search('^#', ...)`), run it through the macro
processor (whose ValueError on multi-`=` lines propagates uncaught), split
the expanded right-hand side on `/`, and record a `(name, version, epics,
maturity)` tuple when the path mentions `work` or `prod` and the extracted
name is a known support module. Negative list indices raise IndexError on
short lists, also uncaught. -/
def getDepLine (prod_support work_support : List String)
    (st : VarDict × List Dep) (rawLine : String) :
    Except Unit (VarDict × List Dep) := do
  let line := pyStrip rawLine
  if strStartsWith line "#" = true then return st
  let ((_, r_val), d) ← process_line st.1 line
  let lst := strSplitOnChar '/' r_val
  if lst.length > 1 then
    if MATURITY_WORK ∈ lst then do
      let epics ← negGet lst 3
      let nm ← negGet lst 1
      if nm ∈ work_support then
        return (d, st.2 ++ [(nm, MATURITY_WORK, epics, MATURITY_WORK)])
      else return (d, st.2)
    else if MATURITY_PROD ∈ lst then do
      let epics ← negGet lst 4
      let nm ← negGet lst 2
      let ver ← negGet lst 1
      if nm ∈ prod_support then
        return (d, st.2 ++ [(nm, ver, epics, MATURITY_PROD)])
      else return (d, st.2)
    else return (d, st.2)
  else return (d, st.2)

/-- versions.py `get_dependencies(file_name, prod_support, work_support)`.
The file contents stand in for `open(file_name)`: `none` means the open
raised IOError, which the source catches, returning the empty list. On a
readable file the lines are folded through `getDepLine` with a fresh
`Macro()` dictionary and the collected tuples are sorted. -/
def get_dependencies (file : Option (List String))
    (prod_support work_support : List String) : Except Unit (List Dep) :=
  match file with
  | none => Except.ok []
  | some lines =>
    match lines.foldlM (getDepLine prod_support work_support) ([], []) with
    | Except.ok (_, out) => Except.ok (sortDeps out)
    | Except.error e => Except.error e

/-- The `bin`-marker walk of gem-compare-modules.py `IocDecoder.decode`
for version `current`, fuel-indexed:

    while link != '/':
        path, last = os.path.split(path)
        if last == 'bin':
            break
    else:
        raise IOError(f"Error finding ...: Non-standard deployment")

`none` means the loop is still running after `fuel` iterations. The
while-else error is reached only when the condition `link != '/'` fails;
the condition tests the constant `link`, not the walked `path`. -/
def binWalk (ioc_ver link : String) : Nat → String → Option (Except String String)
  | 0, _ => none
  | fuel + 1, path =>
    if link = "/" then
      some (Except.error ("Error finding " ++ ioc_ver ++ ": Non-standard deployment"))
    else
      let (p, last) := osPathSplit path
      if last = "bin" then some (Except.ok p) else binWalk ioc_ver link fuel p

/-- The `current` branch of gem-compare-modules.py `IocDecoder.decode`:
build the redirector link name; if `os.path.exists` denies it, raise
IOError naming the requested `ioc_ver`; otherwise resolve the link with
`os.path.realpath` (an oracle here) and walk the result with `binWalk`. -/
def decodeCurrent (fs : String → Bool) (realpath : String → String)
    (root ioc_ver ioc_name : String) (fuel : Nat) :
    Option (Except String String) :=
  let link := pathJoin (pathJoin (pathJoin root "prod") "redirector") ioc_name
  if fs link = false then
    some (Except.error ("Error finding " ++ ioc_ver ++ ": No such link under the redirector"))
  else binWalk ioc_ver link fuel (realpath link)

/-- The attribute tuple produced by versions.py `IOC._split_ioc_link`,
with fields named as `IOC.set_attributes_from_link` consumes them. -/
structure IocAttrs where
  maturity : String
  epics : String
  site : String
  target_name : String
  version : String
  bsp : String
  boot : String
deriving DecidableEq

/-- versions.py `IOC._split_ioc_link(link)`: split the link on `/`; the
maturity is segment 2, forced to `test` when the path is too short or the
segment is not a known maturity; for non-test maturities the EPICS
version, target name and site are segments 3, 5 and 6 (empty when
missing), and the version is segment 7 only for `prod`; the BSP and boot
image are the last-but-one and last segments. -/
def splitIocLink (link : String) : IocAttrs :=
  let lst := strSplitOnChar '/' link
  let m0 := if lst.length > 2 then lst.getD 2 "" else MATURITY_TEST
  let maturity := if m0 ∈ MATURITY_LIST then m0 else MATURITY_TEST
  let epics :=
    if maturity ≠ MATURITY_TEST then
      (if lst.length > 3 then lst.getD 3 "" else "") else ""
  let target :=
    if maturity ≠ MATURITY_TEST then
      (if lst.length > 5 then lst.getD 5 "" else "") else ""
  let site :=
    if maturity ≠ MATURITY_TEST then
      (if lst.length > 6 then lst.getD 6 "" else "") else ""
  let version :=
    if maturity ≠ MATURITY_TEST then
      (if lst.length > 7 ∧ maturity = MATURITY_PROD then lst.getD 7 "" else "")
    else ""
  let bsp := if lst.length > 1 then lst.getD (lst.length - 2) "" else ""
  let boot := if lst.length > 0 then lst.getD (lst.length - 1) "" else ""
  ⟨maturity, epics, site, target, version, bsp, boot⟩

/-- The row of raw cell values of `print_report` for one module: each
compared ioc's recorded version string, or the placeholder `---` when the
module is not among that ioc's dependencies
(`ioc_info[ioc].get(mod, '---')`). -/
def rowCells (maps : List VarDict) (mod : String) : List String :=
  maps.map (fun m => (dictLookup m mod).getD "---")

/-- The row disagreement test of `print_report`:
`len(set(raw_elements)) != 1`, the number of distinct cell values
(placeholder included) differing from one. -/
def rowDiff (raw : List String) : Bool :=
  raw.toFinset.card != 1

/-- The per-cell highlight flags of `print_report`: when the row
disagreement test fires, a cell is highlighted unless it equals the
standard value — the cell of the golden ioc at `stdIdx` when one was
marked, `None` (matching no cell) otherwise; when the row agrees no cell
is highlighted. -/
def cellFlags (raw : List String) (stdIdx : Option Nat) : List Bool :=
  if rowDiff raw = true then
    let std : Option String := stdIdx.map (fun i => raw.getD i "")
    raw.map (fun r => !(std == some r))
  else raw.map (fun _ => false)

/-- One definition step of the gem-compare-modules.py expander, as a
function of the dictionary: expand the raw value with `expand_variable`,
then store it (`var_dict[var_name] = expanded`, lines 79 and 82). -/
def gemDefine (d : VarDict) (nv : String × String) : VarDict :=
  dictInsert d nv.1 (expand_variable d nv.2)

/-- One definition step of the versions.py expander, as a function of the
dictionary: expand the raw value with `_replace_macros`, then store it
(`self.macro_dictionary[l_val] = r_val`, lines 498 and 499). -/
def verDefine (d : VarDict) (nv : String × String) : VarDict :=
  dictInsert d nv.1 (replace_macros d nv.2)

theorem find_update_ne (k v a : String) (hka : k ≠ a) :
    ∀ t : VarDict,
      List.find? (fun p => p.1 == a) (t.map (fun p => if p.1 = k then (k, v) else p))
        = List.find? (fun p => p.1 == a) t := by
  intro t
  induction t with
  | nil => rfl
  | cons p t ih =>
    simp only [List.map_cons]
    by_cases hpk : p.1 = k
    · have h3 : (p.1 == a) = false := by
        simp only [beq_eq_false_iff_ne]; rw [hpk]; exact hka
      rw [if_pos hpk]
      rw [List.find?_cons_of_neg _ (by simpa using hka),
          List.find?_cons_of_neg _ (by simpa using h3)]
      exact ih
    · rw [if_neg hpk]
      by_cases hpa : p.1 = a
      · rw [List.find?_cons_of_pos _ (by simpa using hpa),
            List.find?_cons_of_pos _ (by simpa using hpa)]
      · rw [List.find?_cons_of_neg _ (by simpa using hpa),
            List.find?_cons_of_neg _ (by simpa using hpa)]
        exact ih

theorem dictLookup_insert_ne (d : VarDict) (k v a : String) (hka : k ≠ a) :
    dictLookup (dictInsert d k v) a = dictLookup d a := by
  unfold dictInsert
  split
  · unfold dictLookup
    rw [show (fun p : String × String => if (p.1 == k) = true then (k, v) else p)
          = (fun p : String × String => if p.1 = k then (k, v) else p) by
        funext p; by_cases h : p.1 = k <;> simp [h]]
    rw [find_update_ne k v a hka]
  · unfold dictLookup
    rw [List.find?_append]
    have h2 : (k == a) = false := by simpa using hka
    simp [List.find?, h2]

theorem startsWithList_dollar_false (ps : List Char) (c : Char) (cs : List Char)
    (hc : (c != '$') = true) : startsWithList ('$' :: ps) (c :: cs) = false := by
  simp only [startsWithList, Bool.and_eq_false_iff]
  left
  simp only [bne_iff_ne, ne_eq] at hc
  simp [beq_eq_false_iff_ne]
  exact fun h => hc h.symm

theorem replaceGo_no_dollar (ps sub : List Char) :
    ∀ (fuel : Nat) (l : List Char), l.all (fun c => c != '$') = true →
      replaceGo ('$' :: ps) sub fuel l = l := by
  intro fuel
  induction fuel with
  | zero => intro l _; cases l <;> rfl
  | succ n ih =>
    intro l hl
    cases l with
    | nil => rfl
    | cons c cs =>
      simp only [List.all_cons, Bool.and_eq_true] at hl
      rw [replaceGo, if_neg]
      · rw [ih cs hl.2]
      · intro hcond
        rw [startsWithList_dollar_false ps c cs hl.1] at hcond
        exact absurd hcond.2 (by simp)

theorem pat_data_head (nm : String) :
    ("$(" ++ nm ++ ")").data = '$' :: ('(' :: (nm.data ++ [')'])) := by
  have h1 : ("$(" ++ nm ++ ")").data = "$(".data ++ nm.data ++ ")".data := by
    rw [String.data_append, String.data_append]
  rw [h1]
  rfl

theorem replaceAllStr_no_dollar (nm sub v : String)
    (hv : v.data.all (fun c => c != '$') = true) :
    replaceAllStr ("$(" ++ nm ++ ")") sub v = v := by
  unfold replaceAllStr
  rw [pat_data_head, replaceGo_no_dollar _ _ _ _ hv]

theorem expand_variable_no_dollar (d : VarDict) (v : String)
    (hv : v.data.all (fun c => c != '$') = true) :
    expand_variable d v = v := by
  induction d generalizing v with
  | nil => rfl
  | cons p t ih =>
    show expand_variable (p :: t) v = v
    unfold expand_variable
    rw [List.foldl_cons, replaceAllStr_no_dollar p.1 p.2 v hv]
    exact ih v hv

theorem parseRef_no_dollar (c : Char) (cs : List Char)
    (hc : (c != '$') = true) : parseRef (c :: cs) = none := by
  unfold parseRef
  split
  · rename_i heq
    simp only [bne_iff_ne, ne_eq] at hc
    rw [List.cons.injEq] at heq
    exact absurd heq.1 hc
  · rfl

theorem findRefsGo_no_dollar :
    ∀ (fuel : Nat) (l : List Char), l.all (fun c => c != '$') = true →
      findRefsGo fuel l = [] := by
  intro fuel
  induction fuel with
  | zero => intro l _; cases l <;> rfl
  | succ n ih =>
    intro l hl
    cases l with
    | nil => rfl
    | cons c cs =>
      simp only [List.all_cons, Bool.and_eq_true] at hl
      rw [findRefsGo, parseRef_no_dollar c cs hl.1]
      exact ih cs hl.2

theorem replace_macros_no_dollar (d : VarDict) (v : String)
    (hv : v.data.all (fun c => c != '$') = true) :
    replace_macros d v = v := by
  unfold replace_macros
  split
  · rfl
  · unfold findRefs
    rw [findRefsGo_no_dollar _ _ hv]
    rfl

/-- C10 counterexample: on the definition lines `C = $(B)`, `B = x`,
`A = $(C)` the gem-compare-modules.py expander cascades the substitution
`$(C) ↦ $(B) ↦ x` and stores `A = x`, while the versions.py expander
substitutes only the reference present in the original line and stores
`A = $(B)`. The two implementations are therefore not equivalent. -/
theorem c10_counterexample :
    List.foldl gemDefine [] [("C", "$(B)"), ("B", "x"), ("A", "$(C)")]
      = [("C", "$(B)"), ("B", "x"), ("A", "x")]
    ∧ List.foldl verDefine [] [("C", "$(B)"), ("B", "x"), ("A", "$(C)")]
      = [("C", "$(B)"), ("B", "x"), ("A", "$(B)")] := by
  constructor <;> decide

/-- C10 (amended): the two expansion implementations agree on every
definition sequence whose raw values contain no `$` character (hence no
macro reference at all); in general they differ, because a substituted
value that itself contains a reference to an already-defined variable is
expanded further by `expand_variable` but left alone by
`_replace_macros`. -/
theorem c10_amended (ps : List (String × String)) (d : VarDict)
    (h : ps.all (fun nv => nv.2.data.all (fun c => c != '$')) = true) :
    List.foldl gemDefine d ps = List.foldl verDefine d ps := by
  induction ps generalizing d with
  | nil => rfl
  | cons nv t ih =>
    simp only [List.all_cons, Bool.and_eq_true] at h
    rw [List.foldl_cons, List.foldl_cons]
    have hg : gemDefine d nv = verDefine d nv := by
      unfold gemDefine verDefine
      rw [expand_variable_no_dollar d nv.2 h.1, replace_macros_no_dollar d nv.2 h.1]
    rw [hg]
    exact ih (verDefine d nv) h.2

/-- Witness for `c10_amended` at a concrete reference-free file. -/
theorem c10_witness :
    ([(("A" : String), ("1" : String)), ("B", "2")].all
        (fun nv => nv.2.data.all (fun c => c != '$'))) = true
    ∧ List.foldl gemDefine [] [("A", "1"), ("B", "2")]
        = List.foldl verDefine [] [("A", "1"), ("B", "2")] :=
  ⟨by decide, c10_amended [("A", "1"), ("B", "2")] [] (by decide)⟩

/-- C4: neither macro expander resolves forward references. On the file
`A = $(B)` then `B = x`, both implementations store the literal `$(B)`
for `A` (first two conjuncts); a reference to a never-defined variable
passes through verbatim (next two conjuncts); and in general, processing
a line whose name is not `A` never changes the stored value of `A`, so an
expansion can only use variables defined on earlier lines (last two
conjuncts, one per implementation). -/
theorem c4_no_forward_resolution :
    (gemFile (fun _ => false) ["A = $(B)", "B = x"]).dict
      = [("A", "$(B)"), ("B", "x")]
    ∧ (["A = $(B)", "B = x"].foldlM
        (fun d line => (process_line d line).map (fun r => r.2))
        ([] : VarDict)).toOption = some [("A", "$(B)"), ("B", "x")]
    ∧ (gemFile (fun _ => false) ["A = $(Z)"]).dict = [("A", "$(Z)")]
    ∧ (["A = $(Z)"].foldlM
        (fun d line => (process_line d line).map (fun r => r.2))
        ([] : VarDict)).toOption = some [("A", "$(Z)")]
    ∧ (∀ (fs : String → Bool) (st : GemSt) (raw a : String),
        ((gemParsed raw).all (fun nv => nv.1 != a)) = true →
        dictLookup (gemLine fs st raw).dict a = dictLookup st.dict a)
    ∧ (∀ (d : VarDict) (line a : String) (r : String × String) (d' : VarDict),
        process_line d line = Except.ok (r, d') → (r.1 != a) = true →
        dictLookup d' a = dictLookup d a) := by
  refine ⟨by decide, by decide, by decide, by decide, ?_, ?_⟩
  · intro fs st raw a h
    unfold gemLine
    cases hp : gemParsed raw with
    | none => rfl
    | some nv =>
      obtain ⟨n, v⟩ := nv
      rw [hp] at h
      simp only [Option.all_some, bne_iff_ne, ne_eq] at h
      exact dictLookup_insert_ne st.dict n (expand_variable st.dict v) a h
  · intro d line a r d' hok hne
    unfold process_line at hok
    split at hok
    · rename_i l_val r_val _
      simp only [Except.ok.injEq, Prod.mk.injEq] at hok
      obtain ⟨⟨hr, _⟩, hd⟩ := hok
      simp only [bne_iff_ne, ne_eq] at hne
      rw [← hd]
      apply dictLookup_insert_ne
      exact hne
    · exact absurd hok (by simp)
    · simp only [Except.ok.injEq, Prod.mk.injEq] at hok
      rw [← hok.2]

/-- Witness for the two general conjuncts of `c4_no_forward_resolution`
at concrete inputs: defining `B` does not change the recorded value of
`A` in either implementation. -/
theorem c4_witness :
    (((gemParsed "B = x").all (fun nv => nv.1 != "A")) = true
      ∧ dictLookup (gemLine (fun _ => false) ⟨[], []⟩ "B = x").dict "A"
          = dictLookup (([] : VarDict)) "A")
    ∧ (process_line [("A", "$(B)")] "B = x"
          = Except.ok (("B", "x"), [("A", "$(B)"), ("B", "x")])
      ∧ dictLookup [("A", "$(B)"), ("B", "x")] "A"
          = dictLookup [("A", "$(B)")] "A") :=
  ⟨⟨by decide,
    c4_no_forward_resolution.2.2.2.2.1 (fun _ => false) ⟨[], []⟩ "B = x" "A"
      (by decide)⟩,
   ⟨rfl,
    c4_no_forward_resolution.2.2.2.2.2 [("A", "$(B)")] "B = x" "A" ("B", "x")
      [("A", "$(B)"), ("B", "x")] rfl (by decide)⟩⟩

theorem toFinset_card_one_iff (l : List String) (hl : l ≠ []) :
    (l.toFinset.card = 1) ↔ (l.all (fun x => x == l.headD "") = true) := by
  cases l with
  | nil => exact absurd rfl hl
  | cons y t =>
    simp only [List.headD_cons]
    constructor
    · intro h1
      obtain ⟨a, ha⟩ := Finset.card_eq_one.mp h1
      have hmem : ∀ x ∈ y :: t, x = a := by
        intro x hx
        have hx2 : x ∈ (y :: t).toFinset := List.mem_toFinset.mpr hx
        rw [ha] at hx2
        exact Finset.mem_singleton.mp hx2
      have hy := hmem y (by simp)
      rw [List.all_eq_true]
      intro x hx
      have hxa := hmem x hx
      simp only [beq_iff_eq]
      rw [hxa, hy]
    · intro h2
      have hset : (y :: t).toFinset = {y} := by
        apply Finset.ext
        intro x
        simp only [List.mem_toFinset, Finset.mem_singleton]
        constructor
        · intro hx
          have := (List.all_eq_true.mp h2) x hx
          simpa using this
        · intro hx
          rw [hx]
          simp
      rw [hset, Finset.card_singleton]

/-- C1 counterexample: with no baseline marked, the dependency maps
`{A: 1}`, `{A: 1}`, `{}` give the row `["1", "1", "---"]` for variable
`A`; every non-placeholder cell is `"1"`, yet `print_report` flags the
row as disagreeing, because the placeholder participates in the
`len(set(...)) != 1` test. -/
theorem c1_counterexample :
    rowCells [[("A", "1")], [("A", "1")], []] "A" = ["1", "1", "---"]
    ∧ (["1", "1", "---"] : List String).all (fun x => x == "---" || x == "1") = true
    ∧ rowDiff ["1", "1", "---"] = true :=
  ⟨by decide, by decide, by decide⟩

/-- C1 (amended): with no baseline marked, a row is reported in agreement
iff all its cell values — the placeholder included — are identical, i.e.
iff every compared entity records the same value or every compared entity
lacks the dependency; a row mixing placeholders with otherwise identical
values is flagged as disagreeing. -/
theorem c1_agreement_amended (maps : List VarDict) (mod : String)
    (h : maps ≠ []) :
    rowDiff (rowCells maps mod) = false
      ↔ (rowCells maps mod).all
          (fun x => x == (rowCells maps mod).headD "") = true := by
  have hne : rowCells maps mod ≠ [] := by
    unfold rowCells
    simpa using h
  unfold rowDiff
  rw [bne_eq_false_iff_eq]
  exact toFinset_card_one_iff _ hne

/-- Witness for `c1_agreement_amended` on a concrete two-entity run. -/
theorem c1_witness :
    ([[("A", "1")], [("A", "1")]] : List VarDict) ≠ []
    ∧ (rowDiff (rowCells [[("A", "1")], [("A", "1")]] "A") = false
        ↔ (rowCells [[("A", "1")], [("A", "1")]] "A").all
            (fun x => x == (rowCells [[("A", "1")], [("A", "1")]] "A").headD "")
            = true) :=
  ⟨by decide, c1_agreement_amended [[("A", "1")], [("A", "1")]] "A" (by decide)⟩

/-- C8: when a baseline (golden) entity at column `i` is designated,
`print_report` decides agreement cell by cell: a cell is highlighted as
disagreeing exactly when its value differs from the baseline's value for
that row, whether or not the row as a whole agrees. In particular (second
conjunct) a cell equal to the baseline is marked agreeing even when a
third, non-baseline cell disagrees with both. -/
theorem c8_baseline_cells :
    (∀ (raw : List String) (i : Nat), i < raw.length →
      cellFlags raw (some i) = raw.map (fun r => raw.getD i "" != r))
    ∧ cellFlags ["7", "7", "9"] (some 0) = [false, false, true] := by
  refine ⟨?_, by decide⟩
  intro raw i hi
  unfold cellFlags
  by_cases hd : rowDiff raw = true
  · rw [if_pos hd]
    rfl
  · rw [if_neg hd]
    have hne : raw ≠ [] := by
      intro h
      rw [h] at hi
      exact absurd hi (by simp)
    have hcard : raw.toFinset.card = 1 := by
      unfold rowDiff at hd
      simpa using hd
    have hall : ∀ x ∈ raw, x = raw.headD "" := by
      intro x hx
      have := (toFinset_card_one_iff raw hne).mp hcard
      have := (List.all_eq_true.mp this) x hx
      simpa using this
    have hgd : raw.getD i "" = raw.headD "" := by
      rw [List.getD_eq_getElem raw "" hi]
      exact hall _ (List.getElem_mem hi)
    refine (List.map_congr_left ?_).symm
    intro r hr
    rw [bne_eq_false_iff_eq, hgd]
    exact (hall r hr).symm

/-- Witness for `c8_baseline_cells` at a concrete row. -/
theorem c8_witness :
    0 < (["7", "7"] : List String).length
    ∧ cellFlags ["7", "7"] (some 0)
        = (["7", "7"] : List String).map
            (fun r => (["7", "7"] : List String).getD 0 "" != r) :=
  ⟨by decide, c8_baseline_cells.1 ["7", "7"] 0 (by decide)⟩

/-- C6: on every parsed `name = value` line, `extract_support` appends a
dependency record exactly when the name is not one of the two excluded
bookkeeping variables and `os.path.exists` grants the `lib` subdirectory
of the macro-expanded path (first conjunct); the two bookkeeping names
are excluded even under a filesystem oracle that grants everything, while
an ordinary name is accepted under the same oracle (remaining
conjuncts). -/
theorem c6_dependency_filter :
    (∀ (fs : String → Bool) (st : GemSt) (raw n v : String),
      gemParsed raw = some (n, v) →
      (gemLine fs st raw).recs = st.recs ++
        (if n ∉ EXCLUDE_MODULES
            ∧ fs (pathJoin (expand_variable st.dict v) "lib") = true
         then [⟨n, expand_variable st.dict v,
                 extract_version (expand_variable st.dict v)⟩]
         else []))
    ∧ (gemLine (fun _ => true) ⟨[], []⟩ "EPICS_BASE = /x").recs = []
    ∧ (gemLine (fun _ => true) ⟨[], []⟩ "EPICS_RELEASE = /x").recs = []
    ∧ (gemLine (fun _ => true) ⟨[], []⟩ "IOCSTATS = /x").recs
        = [⟨"IOCSTATS", "/x", none⟩] := by
  refine ⟨?_, by decide, by decide, by decide⟩
  intro fs st raw n v hp
  unfold gemLine
  rw [hp]
  dsimp only
  split
  · rfl
  · exact (List.append_nil st.recs).symm

/-- Witness for `c6_dependency_filter` on a concrete accepted line. -/
theorem c6_witness :
    gemParsed "FOO = /x" = some ("FOO", "/x")
    ∧ (gemLine (fun _ => true) ⟨[], []⟩ "FOO = /x").recs = ([] : List Support) ++
        (if ("FOO" : String) ∉ EXCLUDE_MODULES
            ∧ (fun _ => true) (pathJoin (expand_variable [] "/x") "lib") = true
         then [⟨"FOO", expand_variable [] "/x",
                 extract_version (expand_variable [] "/x")⟩]
         else []) :=
  ⟨by decide,
   c6_dependency_filter.1 (fun _ => true) ⟨[], []⟩ "FOO = /x" "FOO" "/x" (by decide)⟩

/-- C7: for every accepted dependency the reported version is the last
path segment when it begins with digits, a dash and a digit, and the full
expanded path otherwise (first conjunct, over arbitrary paths); a path
ending in `3-1-14-3-BR314` reports that segment, a path ending in
`unstable` reports the whole path (remaining conjuncts). -/
theorem c7_version_reporting :
    (∀ (nm p : String),
      mod_version ⟨nm, p, extract_version p⟩
        = if releaseMatch (osPathSplit p).2 = true then (osPathSplit p).2 else p)
    ∧ mod_version ⟨"IOCSTATS", "/gem_sw/prod/R3.14.12.6/support/iocStats/3-1-14-3-BR314",
        extract_version "/gem_sw/prod/R3.14.12.6/support/iocStats/3-1-14-3-BR314"⟩
        = "3-1-14-3-BR314"
    ∧ mod_version ⟨"IOCSTATS", "/gem_sw/prod/R3.14.12.6/support/iocStats/unstable",
        extract_version "/gem_sw/prod/R3.14.12.6/support/iocStats/unstable"⟩
        = "/gem_sw/prod/R3.14.12.6/support/iocStats/unstable" := by
  refine ⟨?_, by decide, by decide⟩
  intro nm p
  unfold mod_version extract_version
  dsimp only
  split <;> rfl

/-- C9: the path-convention decoder. A production link with all six
convention segments decodes to a fully populated record; a work link
without the release segment decodes with an empty version and no error; a
link too short to carry a maturity segment, or one carrying an
unrecognized maturity, is forced to the `test` maturity (first four
conjuncts). In general a path of at most two segments decodes as `test`,
the decoded maturity is always one of the three known maturities, and a
`work` decode always has an empty version (last three conjuncts). -/
theorem c9_path_convention :
    splitIocLink "/gem_sw/prod/R3.14.12.6/ioc/mcs/cp/1-8-R314/bin/RTEMS-mvme2307/mcs-cp-ioc.boot"
      = ⟨"prod", "R3.14.12.6", "cp", "mcs", "1-8-R314", "RTEMS-mvme2307", "mcs-cp-ioc.boot"⟩
    ∧ splitIocLink "/gem_sw/work/R3.14.12.6/ioc/mcs/cp/bin/RTEMS-mvme2307/mcs-cp-ioc.boot"
      = ⟨"work", "R3.14.12.6", "cp", "mcs", "", "RTEMS-mvme2307", "mcs-cp-ioc.boot"⟩
    ∧ splitIocLink "boot.bin" = ⟨"test", "", "", "", "", "", "boot.bin"⟩
    ∧ splitIocLink "/gem_sw/junk/R3/ioc/mcs/cp/1-8/bin/bsp/x.boot"
      = ⟨"test", "", "", "", "", "bsp", "x.boot"⟩
    ∧ (∀ link : String, (strSplitOnChar '/' link).length ≤ 2 →
        (splitIocLink link).maturity = MATURITY_TEST)
    ∧ (∀ link : String, (splitIocLink link).maturity ∈ MATURITY_LIST)
    ∧ (∀ link : String, (splitIocLink link).maturity = MATURITY_WORK →
        (splitIocLink link).version = "") := by
  refine ⟨by decide, by decide, by decide, by decide, ?_, ?_, ?_⟩
  · intro link h
    unfold splitIocLink
    dsimp only
    split
    · next hgt => exact absurd hgt (by omega)
    · split <;> rfl
  · intro link
    unfold splitIocLink
    dsimp only
    split <;> split
    · assumption
    · decide
    · assumption
    · decide
  · intro link h
    unfold splitIocLink at h ⊢
    dsimp only at h ⊢
    rw [h]
    rw [if_pos (by decide)]
    rw [if_neg (fun hc => absurd hc.2 (by decide))]

/-- Witness for the quantified conjuncts of `c9_path_convention`. -/
theorem c9_witness :
    ((strSplitOnChar '/' "x").length ≤ 2
      ∧ (splitIocLink "x").maturity = MATURITY_TEST)
    ∧ ((splitIocLink "/gem_sw/work/R3/ioc/mcs/cp/bin/b/x.boot").maturity
          = MATURITY_WORK
      ∧ (splitIocLink "/gem_sw/work/R3/ioc/mcs/cp/bin/b/x.boot").version = "") :=
  ⟨⟨by decide, c9_path_convention.2.2.2.2.1 "x" (by decide)⟩,
   ⟨by decide, c9_path_convention.2.2.2.2.2.2 "/gem_sw/work/R3/ioc/mcs/cp/bin/b/x.boot"
      (by decide)⟩⟩

/-- C5 counterexample: versions.py `Macro.process_line` raises an uncaught
ValueError on the line `A=B=C`, which splits into three parts on `=`;
malformed content with more than one `=` is not silently skipped there. -/
theorem c5_counterexample : process_line [] "A=B=C" = Except.error () := rfl

/-- C5 (amended): versions.py `process_line` raises ValueError exactly on
lines that split into three or more parts on `=` (first conjunct), while
gem-compare-modules.py `extract_support` silently skips every line that
does not parse into a name/value pair — its state is left unchanged and
no error can escape (second conjunct). -/
theorem c5_amended :
    (∀ (d : VarDict) (line : String),
      process_line d line = Except.error ()
        ↔ 3 ≤ (strSplitOnChar '=' line).length)
    ∧ (∀ (fs : String → Bool) (st : GemSt) (raw : String),
        gemParsed raw = none → gemLine fs st raw = st) := by
  constructor
  · intro d line
    unfold process_line
    rcases hs : strSplitOnChar '=' line with _ | ⟨a, _ | ⟨b, _ | ⟨c, t⟩⟩⟩
    · simp
    · simp
    · simp
    · simp only [List.length_cons]
      constructor
      · intro _
        omega
      · intro _
        trivial
  · intro fs st raw h
    unfold gemLine
    rw [h]

/-- Witness for the skip conjunct of `c5_amended`. -/
theorem c5_witness :
    gemParsed "no equals sign here" = none
    ∧ gemLine (fun _ => false) ⟨[], []⟩ "no equals sign here" = ⟨[], []⟩ :=
  ⟨by decide,
   c5_amended.2 (fun _ => false) ⟨[], []⟩ "no equals sign here" (by decide)⟩

/-- C3 counterexample: versions.py `get_dependencies` traps the IOError of
a missing `configure/RELEASE` file and returns the empty dependency list —
the error is swallowed, not propagated. -/
theorem c3_counterexample :
    get_dependencies none ["iocStats"] ["foo"] = Except.ok [] := rfl

/-- C3 (amended): when the `configure/RELEASE` file cannot be opened,
gem-compare-modules.py `extract_support` raises an IOError carrying the
requesting entity's name and the missing file path (never an empty list);
versions.py `get_dependencies` instead catches the IOError and returns an
empty dependency list. -/
theorem c3_amended (fs : String → Bool) (ioc top : String)
    (ps ws : List String) :
    extract_support fs ioc top none
      = Except.error ("Extracting modules for " ++ ioc ++ ": No such file "
          ++ pathJoin (pathJoin top "configure") "RELEASE")
    ∧ get_dependencies none ps ws = Except.ok [] :=
  ⟨rfl, rfl⟩

/-- C2: resolution of a `current` entity. When the redirector link does
not exist, `IocDecoder.decode` does raise an IOError naming the requested
identifier (first conjunct). But when the link exists and its resolved
real path contains no `bin` segment, the walk never terminates: the loop
condition `while link != '/'` tests the constant `link` instead of the
walked `path`, so for every amount of fuel the loop is still running and
the Non-standard-deployment branch is never reached (second conjunct). -/
theorem c2_current_resolution :
    decodeCurrent (fun _ => false) (fun p => p) "/gem_sw" "ag:current" "ag-mk-ioc" 5
      = some (Except.error "Error finding ag:current: No such link under the redirector")
    ∧ (∀ fuel : Nat,
        binWalk "ag:current" "/gem_sw/prod/redirector/ag-mk-ioc" fuel
          "/opt/area/thing" = none) := by
  refine ⟨rfl, ?_⟩
  have hroot : ∀ n : Nat,
      binWalk "ag:current" "/gem_sw/prod/redirector/ag-mk-ioc" n "/" = none := by
    intro n
    induction n with
    | zero => rfl
    | succ k ih =>
      show binWalk "ag:current" "/gem_sw/prod/redirector/ag-mk-ioc" k "/" = none
      exact ih
  intro fuel
  match fuel with
  | 0 => rfl
  | 1 => rfl
  | 2 => rfl
  | 3 => rfl
  | (k + 4) =>
    show binWalk "ag:current" "/gem_sw/prod/redirector/ag-mk-ioc" (k + 1) "/" = none
    exact hroot (k + 1)
